import Mathlib

/-!
Shallow embedding of the `dampener` request-throttling library (Go).

Modelling conventions:
* `time.Time` and `time.Duration` are modelled as `Int` (instants on a common
  timeline; `time.Now()` becomes an explicit `now : Int` argument threaded into
  every operation that reads the clock).
* A Go `error` is `Option Err` with `Err := String`; `nil` is `none`.
* The in-memory map `map[string][]time.Time` is a total function
  `String → List Int`: a key missing from the Go map reads as the nil slice,
  which behaves exactly like the empty list under `range` and `append`.
* Stateful methods take the store state explicitly and return the new state.
-/

namespace Dampener

abbrev Err := String

/-- State of `MemoryStorage`: the field `s map[string][]time.Time`. -/
def MemStore := String → List Int

/-- A fresh `MemoryStorage` as built by `NewMemoryStorage`: every key maps onto
the empty log. -/
def emptyStore : MemStore := fun _ => []

/-- Go method `MemoryStorage.AppendEvent(k, t)`: ensures the key has a log and appends
`t` at its end; always returns a nil error. (The Go nil-check plus `append`
collapses into appending on the total-function model.) -/
def MemoryStorage.AppendEvent (s : MemStore) (k : String) (t : Int) :
    MemStore × Option Err :=
  (fun q => if q = k then s k ++ [t] else s q, none)

/-- Go method `MemoryStorage.EventsInDuration(k, d)`: linear scan over the key's log,
incrementing a counter for every timestamp `v` with `v.After(now - d)`,
i.e. `now - d < v`; the store is not modified and the error is always nil. -/
def MemoryStorage.EventsInDuration (s : MemStore) (k : String) (now d : Int) :
    MemStore × Int × Option Err :=
  (s, (s k).foldl (fun c v => if now - d < v then c + 1 else c) 0, none)

/-- Index of the first log entry that is not `Before to` (the first `i` at
which the Go `Clean` loop does not `continue`), if any. -/
def firstIdxGE : List Int → Int → Option Nat
  | [], _ => none
  | v :: rest, cutoff => if v < cutoff then (firstIdxGE rest cutoff).map (fun i => i + 1) else some 0

/-- Go method `MemoryStorage.Clean(k, cutoff)` as written in the source: scan the key's log
for the first index `i` whose entry is at or after `cutoff`; if found, reslice the
log as `s.s[k][i-1:]`; if the scan finishes, return with the log untouched.
The `Bool` records a runtime panic: when `i = 0` the reslice `s.s[k][-1:]`
is a slice-bounds violation, raised before any assignment, so the store is
returned unchanged with the flag set.  The returned Go error is nil on every
non-panicking path. -/
def MemoryStorage.Clean (s : MemStore) (k : String) (cutoff : Int) : MemStore × Bool :=
  match firstIdxGE (s k) cutoff with
  | none => (s, false)
  | some 0 => (s, true)
  | some (Nat.succ j) => ((fun q => if q = k then (s k).drop j else s q), false)

/-- The behaviour `Clean` is documented and specified as having ("clean up every
[entry] earlier than `cutoff`"): keep exactly the entries at or after the cutoff,
in order.  Stated from the spec's words, for comparison with
`MemoryStorage.Clean` above. -/
def specCleanLog (log : List Int) (cutoff : Int) : List Int :=
  log.filter (fun v => cutoff ≤ v)

/-- The Go `Storage` interface, state-passing style: each method consumes the
backend state and returns the successor state alongside its results.  `now` is
an explicit argument where the Go method reads the wall clock.  `Clean` may
also terminate abnormally (`none`), as the reference implementation can. -/
structure Storage (σ : Type) where
  EventsInDuration : σ → String → Int → Int → σ × Int × Option Err
  AppendEvent : σ → String → Int → σ × Option Err
  Clean : σ → String → Int → Option (σ × Option Err)

/-- The `MemoryStorage` implementation packaged as a `Storage` backend. -/
def memStorage : Storage MemStore where
  EventsInDuration := MemoryStorage.EventsInDuration
  AppendEvent := MemoryStorage.AppendEvent
  Clean := fun s k cutoff =>
    match MemoryStorage.Clean s k cutoff with
    | (_, true) => none
    | (s2, false) => some (s2, none)

/-- Go struct `dampenerThrottleOptions`: prefix (field `pfx` here), window duration,
classify predicate `f`, backing storage and max count, for requests of an
abstract type `Req` and a backend with state `σ`. -/
structure ThrottleOptions (σ : Type) (Req : Type) where
  pfx : String
  duration : Int
  f : Req → Bool
  storage : Storage σ
  max : Int

/-- Go method `dampenerThrottle.ShouldThrottle(r)`: if `classify` matches, query
`EventsInDuration(prefix, duration)`; on a storage error return
`(false, err)`; otherwise throttle exactly when `count > max`.  If `classify`
does not match, return `(false, nil)` without touching the storage. -/
def dampenerThrottle.ShouldThrottle {σ Req : Type} (o : ThrottleOptions σ Req)
    (s : σ) (now : Int) (r : Req) : σ × Bool × Option Err :=
  if o.f r then
    match o.storage.EventsInDuration s o.pfx now o.duration with
    | (s2, _, some e) => (s2, false, some e)
    | (s2, count, none) =>
      if count > o.max then (s2, true, none) else (s2, false, none)
  else (s, false, none)

/-- Go method `dampenerThrottle.AppendEvent(r)`: unconditionally records
`store.AppendEvent(prefix, now)`; the request is never inspected and the
storage error is discarded. -/
def dampenerThrottle.AppendEvent {σ Req : Type} (o : ThrottleOptions σ Req)
    (s : σ) (now : Int) (_ : Req) : σ :=
  (o.storage.AppendEvent s o.pfx now).1

/-- Iterated calls of the rule-level `AppendEvent` against the in-memory
backend, one at each instant of `ts` in order (the Go method stamps each call
with `time.Now()`, so `ts` is the list of call times). -/
def appendCalls (o : ThrottleOptions MemStore Unit) (s : MemStore)
    (ts : List Int) : MemStore :=
  ts.foldl (fun st t => dampenerThrottle.AppendEvent o st t ()) s

/-- Observable calls made while a `dampenerPolicy` serves one request:
`ShouldThrottle`/`AppendEvent` of the throttle at a given chain position,
the two writes of the rejection response, and delegation onto the wrapped
downstream handler. -/
inductive CallEvent where
  | shouldThrottle (i : Nat)
  | appendEvent (i : Nat)
  | writeHeader (status : Int)
  | writeBody (msg : List Nat)
  | downstream
deriving DecidableEq

/-- The loop of `dampenerPolicy.ServeHTTP`, as the trace of calls it emits.
Each throttle is abstracted by the `(bool, error)` pair its `ShouldThrottle`
returns when the loop reaches it with the request at hand; `i` numbers the
chain position.  On `yes` the policy writes the configured status and message
and returns; otherwise it calls that throttle's `AppendEvent` and continues;
after the last throttle it delegates downstream. -/
def serveLoop (status : Int) (msg : List Nat) :
    Nat → List (Bool × Option Err) → List CallEvent
  | _, [] => [CallEvent.downstream]
  | i, res :: rest =>
    CallEvent.shouldThrottle i ::
      (if res.1 then [CallEvent.writeHeader status, CallEvent.writeBody msg]
       else CallEvent.appendEvent i :: serveLoop status msg (i + 1) rest)

/-- Go method `dampenerPolicy.ServeHTTP`: run the chain from position 0.
`throttleResults` lists, in chain order, what each throttle's `ShouldThrottle`
answers for this request; `status`/`msg` are the policy options' rejection
status code and message. -/
def dampenerPolicy.ServeHTTP (throttleResults : List (Bool × Option Err))
    (status : Int) (msg : List Nat) : List CallEvent :=
  serveLoop status msg 0 throttleResults

/-- A concrete failing backend, used to exercise the error path of
`ShouldThrottle`: every `EventsInDuration` query reports a storage error. -/
def errStorage : Storage Unit where
  EventsInDuration := fun _ _ _ _ => ((), 0, some "storage down")
  AppendEvent := fun _ _ _ => ((), none)
  Clean := fun _ _ _ => some ((), none)

/-! ## Helper lemmas -/

/-- The counting loop of `EventsInDuration` computes the length of the
sublist of timestamps strictly inside the window. -/
lemma countInWindow_eq (now d : Int) :
    ∀ (l : List Int) (c : Int),
      l.foldl (fun acc v => if now - d < v then acc + 1 else acc) c
        = c + ((l.filter fun v => decide (now - d < v)).length : Int) := by
  intro l
  induction l with
  | nil => intro c; simp
  | cons v rest ih =>
    intro c
    simp only [List.foldl_cons, List.filter_cons]
    by_cases h : now - d < v
    · rw [if_pos h, if_pos (decide_eq_true h), ih, List.length_cons]
      push_cast
      ring
    · rw [if_neg h, if_neg (fun hc => h (of_decide_eq_true hc)), ih]

/-- Effect of a run of rule-level `AppendEvent` calls on the in-memory store:
the rule's key receives exactly the call instants, appended in order; every
other key is untouched. -/
lemma appendCalls_apply (p : String) (D : Int) (f : Unit → Bool) (m : Int) :
    ∀ (ts : List Int) (s : MemStore) (q : String),
      appendCalls ⟨p, D, f, memStorage, m⟩ s ts q
        = if q = p then s p ++ ts else s q := by
  intro ts
  induction ts with
  | nil => intro s q; by_cases hq : q = p <;> simp [appendCalls, hq]
  | cons t rest ih =>
    intro s q
    show appendCalls _ (dampenerThrottle.AppendEvent _ s t ()) rest q = _
    rw [ih]
    simp only [dampenerThrottle.AppendEvent, memStorage, MemoryStorage.AppendEvent]
    by_cases hq : q = p <;> simp [hq]

/-! ## Claims -/

/-- C1: the claim says `Clean(key, cutoff)` removes exactly the events
strictly older than `cutoff` and keeps the rest in order.  The code does not:
on the log `[0, 5]` with cutoff `5` the scan stops at index 1 and reslices
from index 0, so the stale event `0` survives, while the documented behaviour
(`specCleanLog`) keeps only `[5]`. -/
theorem c1_clean_code_bug :
    (MemoryStorage.Clean (fun q => if q = "a" then [0, 5] else []) "a" 5).1 "a" = [0, 5]
    ∧ specCleanLog [0, 5] 5 = [5]
    ∧ (MemoryStorage.Clean (fun q => if q = "a" then [0, 5] else []) "a" 5).1 "a"
        ≠ specCleanLog [0, 5] 5 := by
  refine ⟨rfl, rfl, ?_⟩
  decide

/-- C4: `EventsInDuration(key, window)` returns exactly the number of events
in the key's log with timestamp strictly after `now - window` (so events at or
before `now - window` are never counted), and a key with no log yields 0. -/
theorem c4_events_in_duration (s : MemStore) (k : String) (now d : Int) :
    (MemoryStorage.EventsInDuration s k now d).2.1
      = (((s k).filter fun v => decide (now - d < v)).length : Int)
    ∧ (s k = [] → (MemoryStorage.EventsInDuration s k now d).2.1 = 0) := by
  constructor
  · show (s k).foldl _ 0 = _
    rw [countInWindow_eq]
    ring
  · intro h
    show (s k).foldl _ 0 = 0
    rw [h]
    rfl

/-- Witness for C4 at a concrete input: a fresh store has no log under "x",
and the count there is 0. -/
theorem c4_witness : (MemoryStorage.EventsInDuration emptyStore "x" 5 2).2.1 = 0 :=
  (c4_events_in_duration emptyStore "x" 5 2).2 rfl

/-- C9: `Clean(k, cutoff)` never changes the log of any key other than `k`
(this holds on every path of the source, the panicking one included). -/
theorem c9_clean_frame (s : MemStore) (k : String) (cutoff : Int) (q : String)
    (hq : q ≠ k) :
    (MemoryStorage.Clean s k cutoff).1 q = s q := by
  unfold MemoryStorage.Clean
  cases h : firstIdxGE (s k) cutoff with
  | none => rfl
  | some i =>
    cases i with
    | zero => rfl
    | succ j => simp [hq]

/-- Witness for C9 at a concrete input: cleaning key "a" leaves key "b"'s
log intact. -/
theorem c9_witness :
    (MemoryStorage.Clean (fun q => if q = "a" then [0, 5] else [7]) "a" 5).1 "b" = [7] := by
  simpa using c9_clean_frame (fun q => if q = "a" then [0, 5] else [7]) "a" 5 "b" (by decide)

/-- C5: the rule-level `AppendEvent` records exactly one event, under the
rule's key and stamped with the call time, for every request — the classify
predicate `f` and the request are arbitrary and unconstrained here, and the
result does not depend on the request at all (classify is never re-checked). -/
theorem c5_append_unconditional {Req : Type} (p : String) (D : Int)
    (f : Req → Bool) (m : Int) (s : MemStore) (now : Int) (r : Req) :
    dampenerThrottle.AppendEvent ⟨p, D, f, memStorage, m⟩ s now r p = s p ++ [now]
    ∧ ∀ r2 : Req,
        dampenerThrottle.AppendEvent ⟨p, D, f, memStorage, m⟩ s now r2
          = dampenerThrottle.AppendEvent ⟨p, D, f, memStorage, m⟩ s now r := by
  constructor
  · simp [dampenerThrottle.AppendEvent, memStorage, MemoryStorage.AppendEvent]
  · intro r2
    rfl

/-- C10: memory-backed `ShouldThrottle` is read-only — for every request and
store state it hands the state back unchanged. -/
theorem c10_should_throttle_readonly {Req : Type} (p : String) (D : Int)
    (f : Req → Bool) (m : Int) (s : MemStore) (now : Int) (r : Req) :
    (dampenerThrottle.ShouldThrottle ⟨p, D, f, memStorage, m⟩ s now r).1 = s := by
  by_cases h : f r
  · by_cases hc : ((s p).foldl (fun c v => if now - D < v then c + 1 else c) 0) > m
    · simp [dampenerThrottle.ShouldThrottle, memStorage,
        MemoryStorage.EventsInDuration, h, hc]
    · simp [dampenerThrottle.ShouldThrottle, memStorage,
        MemoryStorage.EventsInDuration, h, hc]
  · simp [dampenerThrottle.ShouldThrottle, h]

/-- C7: when the classify predicate matches and the backend's
`EventsInDuration` reports an error, `ShouldThrottle` returns `(false, err)`
with the very same error, for any backend. -/
theorem c7_storage_error_propagates {σ Req : Type} (o : ThrottleOptions σ Req)
    (s s2 : σ) (now : Int) (r : Req) (c : Int) (e : Err)
    (hf : o.f r = true)
    (hq : o.storage.EventsInDuration s o.pfx now o.duration = (s2, c, some e)) :
    dampenerThrottle.ShouldThrottle o s now r = (s2, false, some e) := by
  simp [dampenerThrottle.ShouldThrottle, hf, hq]

/-- Witness for C7 at a concrete input: against the always-failing backend,
the error comes back verbatim with a `false` decision. -/
theorem c7_witness :
    dampenerThrottle.ShouldThrottle ⟨"k", 1, fun _ => true, errStorage, 0⟩ () 0 ()
      = ((), false, some "storage down") :=
  c7_storage_error_propagates ⟨"k", 1, fun _ => true, errStorage, 0⟩ () () 0 () 0
    "storage down" rfl rfl

/-- C8: when the classify predicate rejects the request, `ShouldThrottle`
answers `(false, nil)` and returns the state untouched — for any backend and
any backend state, i.e. regardless of what is recorded in the store. -/
theorem c8_classify_false {σ Req : Type} (o : ThrottleOptions σ Req) (s : σ)
    (now : Int) (r : Req) (hf : o.f r = false) :
    dampenerThrottle.ShouldThrottle o s now r = (s, false, none) := by
  simp [dampenerThrottle.ShouldThrottle, hf]

/-- Witness for C8 at a concrete input: a store holding three events under
every key, a threshold of 0, and a never-matching predicate still yield
`(false, nil)`. -/
theorem c8_witness :
    dampenerThrottle.ShouldThrottle ⟨"k", 10, fun _ => false, memStorage, 0⟩
        (fun _ => [1, 2, 3]) 5 ()
      = ((fun _ => [1, 2, 3] : MemStore), false, none) :=
  c8_classify_false ⟨"k", 10, fun _ => false, memStorage, 0⟩
    (fun _ => [1, 2, 3] : MemStore) 5 () rfl

/-- Decision of memory-backed `ShouldThrottle` under an always-true classify
predicate: throttle exactly when the in-window count exceeds the max. -/
lemma shouldThrottle_mem (p : String) (D m : Int) (s : MemStore) (now : Int) :
    (dampenerThrottle.ShouldThrottle ⟨p, D, fun _ => true, memStorage, m⟩ s now ()).2
      = (decide ((((s p).filter fun v => decide (now - D < v)).length : Int) > m), none) := by
  simp only [dampenerThrottle.ShouldThrottle, memStorage, MemoryStorage.EventsInDuration,
    if_true, countInWindow_eq, zero_add]
  by_cases hc : ((((s p).filter fun v => decide (now - D < v)).length : Int) > m)
  · rw [if_pos hc, decide_eq_true hc]
  · rw [if_neg hc, decide_eq_false hc]

/-- C2: a rule with threshold `N`, window `D` and an always-true classify
predicate over a fresh in-memory store: after exactly `N` rule-level
`AppendEvent` calls, all at instants inside the window (strictly after
`now - D`), `ShouldThrottle` still answers `(false, nil)`, and after one more
in-window append it answers `(true, nil)`. -/
theorem c2_threshold_boundary (p : String) (D : Int) (N : Nat) (now : Int)
    (ts : List Int) (hlen : ts.length = N) (hwin : ∀ t ∈ ts, now - D < t) :
    (dampenerThrottle.ShouldThrottle ⟨p, D, fun _ => true, memStorage, (N : Int)⟩
        (appendCalls ⟨p, D, fun _ => true, memStorage, (N : Int)⟩ emptyStore ts) now ()).2
      = (false, none)
    ∧ ∀ t2 : Int, now - D < t2 →
        (dampenerThrottle.ShouldThrottle ⟨p, D, fun _ => true, memStorage, (N : Int)⟩
            (appendCalls ⟨p, D, fun _ => true, memStorage, (N : Int)⟩
              emptyStore (ts ++ [t2])) now ()).2
          = (true, none) := by
  constructor
  · rw [shouldThrottle_mem]
    have hp : appendCalls ⟨p, D, fun _ => true, memStorage, (N : Int)⟩ emptyStore ts p
        = ts := by
      rw [appendCalls_apply]
      simp [emptyStore]
    rw [hp, List.filter_eq_self.mpr (fun a ha => decide_eq_true (hwin a ha)), hlen]
    simp
  · intro t2 ht2
    rw [shouldThrottle_mem]
    have hp : appendCalls ⟨p, D, fun _ => true, memStorage, (N : Int)⟩ emptyStore
        (ts ++ [t2]) p = ts ++ [t2] := by
      rw [appendCalls_apply]
      simp [emptyStore]
    have hwin2 : ∀ t ∈ ts ++ [t2], now - D < t := by
      intro t ht
      rcases List.mem_append.mp ht with h | h
      · exact hwin t h
      · rw [List.mem_singleton.mp h]
        exact ht2
    have hN : ((N + 1 : Nat) : Int) > (N : Int) := by exact_mod_cast Nat.lt_succ_self N
    rw [hp, List.filter_eq_self.mpr (fun a ha => decide_eq_true (hwin2 a ha)),
      List.length_append, hlen]
    simp [hN]

/-- Witness for C2 at a concrete input: threshold 2, window 10, query at
instant 10; two appends at instants 5 and 6 leave the rule open, a third at
instant 7 trips it. -/
theorem c2_witness :
    (dampenerThrottle.ShouldThrottle ⟨"ip", 10, fun _ => true, memStorage, (2 : Int)⟩
        (appendCalls ⟨"ip", 10, fun _ => true, memStorage, (2 : Int)⟩
          emptyStore [5, 6]) 10 ()).2
      = (false, none)
    ∧ (dampenerThrottle.ShouldThrottle ⟨"ip", 10, fun _ => true, memStorage, (2 : Int)⟩
        (appendCalls ⟨"ip", 10, fun _ => true, memStorage, (2 : Int)⟩
          emptyStore ([5, 6] ++ [7])) 10 ()).2
      = (true, none) := by
  have h := c2_threshold_boundary "ip" 10 2 10 [5, 6] (by decide) (by decide)
  exact ⟨h.1, h.2 7 (by decide)⟩

/-! ## Chain evaluation lemmas -/

/-- When the loop of `ServeHTTP` reaches a throttle that answers `true` (all
the earlier ones answered `false`), the emitted trace contains the two
rejection writes, and contains neither the downstream delegation, nor an
`AppendEvent` of the rejecting throttle, nor any call to a later throttle. -/
lemma serveLoop_reject (status : Int) (msg : List Nat) :
    ∀ (l : List (Bool × Option Err)) (i0 i : Nat), i < l.length →
      (l.getD i (false, none)).1 = true →
      (∀ j, j < i → (l.getD j (false, none)).1 = false) →
      CallEvent.writeHeader status ∈ serveLoop status msg i0 l ∧
      CallEvent.writeBody msg ∈ serveLoop status msg i0 l ∧
      CallEvent.downstream ∉ serveLoop status msg i0 l ∧
      CallEvent.appendEvent (i0 + i) ∉ serveLoop status msg i0 l ∧
      ∀ n, i0 + i < n →
        CallEvent.shouldThrottle n ∉ serveLoop status msg i0 l ∧
        CallEvent.appendEvent n ∉ serveLoop status msg i0 l := by
  intro l
  induction l with
  | nil =>
    intro i0 i hi
    exact absurd hi (by simp)
  | cons hd tl ih =>
    intro i0 i hi htrue hfalse
    cases i with
    | zero =>
      have hhd : hd.1 = true := by simpa using htrue
      have hform : serveLoop status msg i0 (hd :: tl)
          = [CallEvent.shouldThrottle i0, CallEvent.writeHeader status,
             CallEvent.writeBody msg] := by
        simp [serveLoop, hhd]
      rw [hform]
      refine ⟨by simp, by simp, by simp, by simp, ?_⟩
      intro n hn
      constructor
      · simp only [List.mem_cons]
        rintro (h | h | h | h)
        · injection h with h2
          omega
        · exact CallEvent.noConfusion h
        · exact CallEvent.noConfusion h
        · exact absurd h (List.not_mem_nil _)
      · simp
    | succ i2 =>
      have hhd : hd.1 = false := by
        have := hfalse 0 (Nat.succ_pos i2)
        simpa using this
      have hform : serveLoop status msg i0 (hd :: tl)
          = CallEvent.shouldThrottle i0 :: CallEvent.appendEvent i0 ::
              serveLoop status msg (i0 + 1) tl := by
        simp [serveLoop, hhd]
      have hi2 : i2 < tl.length := by simpa using hi
      have htrue2 : (tl.getD i2 (false, none)).1 = true := by simpa using htrue
      have hfalse2 : ∀ j, j < i2 → (tl.getD j (false, none)).1 = false := by
        intro j hj
        have := hfalse (j + 1) (by omega)
        simpa using this
      obtain ⟨h1, h2, h3, h4, h5⟩ := ih (i0 + 1) i2 hi2 htrue2 hfalse2
      have harith : i0 + (i2 + 1) = (i0 + 1) + i2 := by omega
      rw [hform, harith]
      refine ⟨by simp [h1], by simp [h2], by simp [h3], ?_, ?_⟩
      · intro hmem
        rcases List.mem_cons.mp hmem with h | hmem2
        · exact CallEvent.noConfusion h
        · rcases List.mem_cons.mp hmem2 with h | hmem3
          · injection h with h2
            omega
          · exact h4 hmem3
      · intro n hn
        have hn2 : (i0 + 1) + i2 < n := by omega
        obtain ⟨ha, hb⟩ := h5 n hn2
        constructor
        · intro hmem
          rcases List.mem_cons.mp hmem with h | hmem2
          · injection h with h2
            omega
          · rcases List.mem_cons.mp hmem2 with h | hmem3
            · exact CallEvent.noConfusion h
            · exact ha hmem3
        · intro hmem
          rcases List.mem_cons.mp hmem with h | hmem2
          · exact CallEvent.noConfusion h
          · rcases List.mem_cons.mp hmem2 with h | hmem3
            · injection h with h2
              omega
            · exact hb hmem3

/-- C3: in a chain where rule `i` is the first whose `ShouldThrottle` answers
`true`, `ServeHTTP` writes the configured reject status and body and stops:
the downstream handler is never invoked, rule `i`'s `AppendEvent` is never
invoked, and neither `ShouldThrottle` nor `AppendEvent` of any later rule is
ever invoked. -/
theorem c3_chain_short_circuit (throttleResults : List (Bool × Option Err))
    (status : Int) (msg : List Nat) (i : Nat)
    (hi : i < throttleResults.length)
    (htrue : (throttleResults.getD i (false, none)).1 = true)
    (hfalse : ∀ j, j < i → (throttleResults.getD j (false, none)).1 = false) :
    CallEvent.writeHeader status ∈ dampenerPolicy.ServeHTTP throttleResults status msg ∧
    CallEvent.writeBody msg ∈ dampenerPolicy.ServeHTTP throttleResults status msg ∧
    CallEvent.downstream ∉ dampenerPolicy.ServeHTTP throttleResults status msg ∧
    CallEvent.appendEvent i ∉ dampenerPolicy.ServeHTTP throttleResults status msg ∧
    ∀ n, i < n →
      CallEvent.shouldThrottle n ∉ dampenerPolicy.ServeHTTP throttleResults status msg ∧
      CallEvent.appendEvent n ∉ dampenerPolicy.ServeHTTP throttleResults status msg := by
  have h := serveLoop_reject status msg throttleResults 0 i hi htrue hfalse
  simpa [dampenerPolicy.ServeHTTP] using h

/-- Witness for C3 at a concrete input: in the chain `[false, true, false]`
the rejection happens at position 1; nothing after it runs, position 1 is
never recorded, and the downstream handler is never reached. -/
theorem c3_witness :
    CallEvent.writeHeader 429
        ∈ dampenerPolicy.ServeHTTP [(false, none), (true, none), (false, none)] 429 [1]
    ∧ CallEvent.downstream
        ∉ dampenerPolicy.ServeHTTP [(false, none), (true, none), (false, none)] 429 [1]
    ∧ CallEvent.appendEvent 1
        ∉ dampenerPolicy.ServeHTTP [(false, none), (true, none), (false, none)] 429 [1]
    ∧ CallEvent.shouldThrottle 2
        ∉ dampenerPolicy.ServeHTTP [(false, none), (true, none), (false, none)] 429 [1] := by
  have h := c3_chain_short_circuit [(false, none), (true, none), (false, none)] 429 [1] 1
    (by decide) (by decide) (by decide)
  exact ⟨h.1, h.2.2.1, h.2.2.2.1, (h.2.2.2.2 2 (by decide)).1⟩

/-- The trace of the `ServeHTTP` loop depends only on the booleans the
throttles answer: replacing every returned error by nil changes nothing. -/
lemma serveLoop_error_insensitive (status : Int) (msg : List Nat) :
    ∀ (l : List (Bool × Option Err)) (i0 : Nat),
      serveLoop status msg i0 l
        = serveLoop status msg i0 (l.map fun r => (r.1, (none : Option Err))) := by
  intro l
  induction l with
  | nil => intro i0; rfl
  | cons hd tl ih =>
    intro i0
    by_cases hhd : hd.1 <;> simp [serveLoop, hhd, ih (i0 + 1)]

/-- If every throttle strictly before position `m` answers `false`, the loop
reaches position `m` and calls its `ShouldThrottle`. -/
lemma serveLoop_visits (status : Int) (msg : List Nat) :
    ∀ (l : List (Bool × Option Err)) (i0 m : Nat), m < l.length →
      (∀ j, j < m → (l.getD j (false, none)).1 = false) →
      CallEvent.shouldThrottle (i0 + m) ∈ serveLoop status msg i0 l := by
  intro l
  induction l with
  | nil =>
    intro i0 m hm
    exact absurd hm (by simp)
  | cons hd tl ih =>
    intro i0 m hm hfalse
    cases m with
    | zero =>
      cases hyes : hd.1 <;> simp [serveLoop, hyes]
    | succ m2 =>
      have hhd : hd.1 = false := by
        have := hfalse 0 (Nat.succ_pos m2)
        simpa using this
      have hm2 : m2 < tl.length := by simpa using hm
      have hfalse2 : ∀ j, j < m2 → (tl.getD j (false, none)).1 = false := by
        intro j hj
        have := hfalse (j + 1) (by omega)
        simpa using this
      have harith : i0 + (m2 + 1) = (i0 + 1) + m2 := by omega
      have := ih (i0 + 1) m2 hm2 hfalse2
      simp only [serveLoop, hhd, Bool.false_eq_true, if_false]
      rw [harith]
      exact List.mem_cons_of_mem _ (List.mem_cons_of_mem _ this)

/-- If every throttle at or before position `m` answers `false`, the loop
calls `AppendEvent` of the throttle at position `m`. -/
lemma serveLoop_appends (status : Int) (msg : List Nat) :
    ∀ (l : List (Bool × Option Err)) (i0 m : Nat), m < l.length →
      (∀ j, j ≤ m → (l.getD j (false, none)).1 = false) →
      CallEvent.appendEvent (i0 + m) ∈ serveLoop status msg i0 l := by
  intro l
  induction l with
  | nil =>
    intro i0 m hm
    exact absurd hm (by simp)
  | cons hd tl ih =>
    intro i0 m hm hfalse
    have hhd : hd.1 = false := by
      have := hfalse 0 (Nat.zero_le m)
      simpa using this
    cases m with
    | zero =>
      simp [serveLoop, hhd]
    | succ m2 =>
      have hm2 : m2 < tl.length := by simpa using hm
      have hfalse2 : ∀ j, j ≤ m2 → (tl.getD j (false, none)).1 = false := by
        intro j hj
        have := hfalse (j + 1) (by omega)
        simpa using this
      have harith : i0 + (m2 + 1) = (i0 + 1) + m2 := by omega
      have := ih (i0 + 1) m2 hm2 hfalse2
      simp only [serveLoop, hhd, Bool.false_eq_true, if_false]
      rw [harith]
      exact List.mem_cons_of_mem _ (List.mem_cons_of_mem _ this)

/-- If every throttle answers `false`, the loop reaches the downstream
handler. -/
lemma serveLoop_downstream (status : Int) (msg : List Nat) :
    ∀ (l : List (Bool × Option Err)) (i0 : Nat),
      (∀ j, j < l.length → (l.getD j (false, none)).1 = false) →
      CallEvent.downstream ∈ serveLoop status msg i0 l := by
  intro l
  induction l with
  | nil => intro i0 _; simp [serveLoop]
  | cons hd tl ih =>
    intro i0 hfalse
    have hhd : hd.1 = false := by
      have := hfalse 0 (by simp)
      simpa using this
    have hfalse2 : ∀ j, j < tl.length → (tl.getD j (false, none)).1 = false := by
      intro j hj
      have := hfalse (j + 1) (by simpa using Nat.succ_lt_succ hj)
      simpa using this
    have := ih (i0 + 1) hfalse2
    simp only [serveLoop, hhd, Bool.false_eq_true, if_false]
    exact List.mem_cons_of_mem _ (List.mem_cons_of_mem _ this)

/-- C6: when the rule at position `i` answers `(false, err)` with a storage
error, the chain ignores the error entirely (the trace is the same as if all
errors were nil), records the request through that rule's `AppendEvent`,
continues with the next rule if there is one, and — when every rule answers
`false` — still hands the request to the downstream handler (fail-open). -/
theorem c6_chain_fail_open (throttleResults : List (Bool × Option Err))
    (status : Int) (msg : List Nat) (i : Nat) (e : Err)
    (hi : i < throttleResults.length)
    (hres : throttleResults.getD i (false, none) = (false, some e))
    (hfalse : ∀ j, j < i → (throttleResults.getD j (false, none)).1 = false) :
    dampenerPolicy.ServeHTTP throttleResults status msg
      = dampenerPolicy.ServeHTTP
          (throttleResults.map fun r => (r.1, (none : Option Err))) status msg
    ∧ CallEvent.appendEvent i ∈ dampenerPolicy.ServeHTTP throttleResults status msg
    ∧ (i + 1 < throttleResults.length →
        CallEvent.shouldThrottle (i + 1)
          ∈ dampenerPolicy.ServeHTTP throttleResults status msg)
    ∧ ((∀ j, j < throttleResults.length → (throttleResults.getD j (false, none)).1 = false) →
        CallEvent.downstream ∈ dampenerPolicy.ServeHTTP throttleResults status msg) := by
  have hle : ∀ j, j ≤ i → (throttleResults.getD j (false, none)).1 = false := by
    intro j hj
    rcases Nat.lt_or_ge j i with h | h
    · exact hfalse j h
    · have : j = i := by omega
      rw [this, hres]
  refine ⟨serveLoop_error_insensitive status msg throttleResults 0, ?_, ?_, ?_⟩
  · have := serveLoop_appends status msg throttleResults 0 i hi hle
    simpa [dampenerPolicy.ServeHTTP] using this
  · intro hnext
    have hlt : ∀ j, j < i + 1 → (throttleResults.getD j (false, none)).1 = false := by
      intro j hj
      exact hle j (by omega)
    have := serveLoop_visits status msg throttleResults 0 (i + 1) hnext hlt
    simpa [dampenerPolicy.ServeHTTP] using this
  · intro hall
    exact serveLoop_downstream status msg throttleResults 0 hall

/-- Witness for C6 at a concrete input: the first rule reports a storage
error with `false`; its event is still recorded, the second rule still runs
and the request still reaches the downstream handler. -/
theorem c6_witness :
    dampenerPolicy.ServeHTTP [(false, some "storage down"), (false, none)] 429 [1]
      = dampenerPolicy.ServeHTTP [(false, none), (false, none)] 429 [1]
    ∧ CallEvent.appendEvent 0
        ∈ dampenerPolicy.ServeHTTP [(false, some "storage down"), (false, none)] 429 [1]
    ∧ CallEvent.shouldThrottle 1
        ∈ dampenerPolicy.ServeHTTP [(false, some "storage down"), (false, none)] 429 [1]
    ∧ CallEvent.downstream
        ∈ dampenerPolicy.ServeHTTP [(false, some "storage down"), (false, none)] 429 [1] := by
  have h := c6_chain_fail_open [(false, some "storage down"), (false, none)] 429 [1] 0
    "storage down" (by decide) (by simp) (by omega)
  exact ⟨h.1, h.2.1, h.2.2.1 (by decide), h.2.2.2 (by decide)⟩

end Dampener
